/-
Verification of the referendum data pipeline in `pandas_questions.py`.

The pipeline is shallowly embedded: each pandas DataFrame becomes a list of
rows (a structure per table shape), and each pipeline function becomes a
Lean function over those lists, following the source line by line.
Vote counts are natural numbers; a pandas NaN entry in a string column is
modelled as `Option.none`; the float result of the ratio division is
modelled as `Option ℚ`, with `none` standing for the non-finite value
(NaN) produced by a zero denominator.
-/
import Mathlib

namespace Referendum

/-- A raw department code as found in the input table: the `Department code`
column holds either a number or a string (inconsistent width). -/
inductive RawCode where
  | int : Int → RawCode
  | str : String → RawCode
deriving DecidableEq, Repr

/-- `.astype(str)` on the raw code column: Python `str()` of the value.
For integers this is the decimal representation (with a leading `-` for
negative values), for strings it is the string itself. -/
def astype_str : RawCode → String
  | .int n => Int.repr n
  | .str s => s

/-- The integer payload of a raw code, when it is one. -/
def intValue : RawCode → Option Int
  | .int n => some n
  | .str _ => none

/-- Python `str.zfill(width)`: left-pad with ASCII `'0'` up to `width`;
a leading sign character keeps its place and the padding is inserted
after it; a string already at least `width` long is returned unchanged. -/
def zfill (s : String) (width : Nat) : String :=
  if width ≤ s.length then s
  else
    let pad := List.replicate (width - s.length) '0'
    match s.data with
    | [] => String.mk pad
    | c :: rest =>
      if c = '+' ∨ c = '-' then String.mk (c :: (pad ++ rest))
      else String.mk (pad ++ (c :: rest))

/-- Line 57-58 of the source: the normalized department code,
`referendum['Department code'].astype(str).str.zfill(2)`. -/
def normalizeCode (c : RawCode) : String :=
  zfill (astype_str c) 2

/-- Line 61: `.str.contains('Z')` for the one-character pattern `'Z'`
(case-sensitive). -/
def containsZ (s : String) : Bool :=
  s.data.any (fun c => c = 'Z')

/-- Numeric value of a decimal digit character. -/
def digitVal (c : Char) : Nat := c.toNat - '0'.toNat

/-- Numeric value of a decimal digit string (most significant digit first). -/
def decValue (s : String) : Nat :=
  s.data.foldl (fun a c => 10 * a + digitVal c) 0

/-- A row of `regions.csv` (the fields the code uses). -/
structure Region where
  code : String
  name : String
deriving DecidableEq, Repr

/-- A row of `departments.csv` (the fields the code uses). -/
structure Department where
  region_code : String
  code : String
  name : String
deriving DecidableEq, Repr

/-- A row of the table returned by `merge_regions_and_departments`:
columns `['code_reg', 'name_reg', 'code_dep', 'name_dep']`.  `name_reg` is
`none` when the left join found no region for the department's region code
(pandas fills NaN). -/
structure AreaRow where
  code_reg : String
  name_reg : Option String
  code_dep : String
  name_dep : String
deriving DecidableEq, Repr

/-- The column list of the area lookup table, line 47 of the source. -/
def areaColumns : List String :=
  ["code_reg", "name_reg", "code_dep", "name_dep"]

/-- The rows a left merge on `code_reg` emits for one department: one
combined row per matching region row, and a single row with `name_reg`
absent (NaN-filled) when no region matches. -/
def areaRowsOf (regions : List Region) (d : Department) : List AreaRow :=
  if (regions.filter (fun r => r.code == d.region_code)).isEmpty then
    [{ code_reg := d.region_code, name_reg := none,
       code_dep := d.code, name_dep := d.name }]
  else
    (regions.filter (fun r => r.code == d.region_code)).map (fun r =>
      { code_reg := d.region_code, name_reg := some r.name,
        code_dep := d.code, name_dep := d.name })

/-- Lines 40-47: left-merge the renamed department table with the renamed
region table on `code_reg`, keeping the department rows in order. -/
def merge_regions_and_departments (regions : List Region)
    (departments : List Department) : List AreaRow :=
  departments.flatMap (areaRowsOf regions)

/-- A row of the referendum table as loaded (the fields the code uses):
`Department code`, `Registered`, `Abstentions`, `Null`, `Choice A`,
`Choice B`; the counts are non-negative integers. -/
structure RefRow where
  department_code : RawCode
  registered : Nat
  abstentions : Nat
  nullBallots : Nat
  choiceA : Nat
  choiceB : Nat
deriving DecidableEq, Repr

/-- A referendum row after line 58 added the `code_dep` column. -/
structure RefRowN extends RefRow where
  code_dep : String
deriving DecidableEq, Repr

/-- Line 57-58: the state of the `referendum` argument after
`referendum['code_dep'] = dept_code.str.zfill(2)` ran — every row carries
the normalized code. -/
def referendum_after_merge (referendum : List RefRow) : List RefRowN :=
  referendum.map (fun r =>
    { toRefRow := r, code_dep := normalizeCode r.department_code })

/-- Line 61: the rows surviving the `'Z'` exclusion,
`referendum[~referendum['code_dep'].str.contains('Z')]`. -/
def survivors (referendum : List RefRow) : List RefRowN :=
  (referendum_after_merge referendum).filter (fun r => ! containsZ r.code_dep)

/-- A row of the table returned by `merge_referendum_and_areas`: all
referendum columns, the shared `code_dep` key, and the area columns. -/
structure JoinedVote where
  department_code : RawCode
  registered : Nat
  abstentions : Nat
  nullBallots : Nat
  choiceA : Nat
  choiceB : Nat
  code_dep : String
  code_reg : String
  name_reg : Option String
  name_dep : String
deriving DecidableEq, Repr

/-- The combined row an inner merge on `code_dep` produces. -/
def mkJoined (r : RefRowN) (a : AreaRow) : JoinedVote :=
  { department_code := r.department_code, registered := r.registered,
    abstentions := r.abstentions, nullBallots := r.nullBallots,
    choiceA := r.choiceA, choiceB := r.choiceB, code_dep := r.code_dep,
    code_reg := a.code_reg, name_reg := a.name_reg, name_dep := a.name_dep }

/-- Lines 50-71: normalize the department codes, drop the `'Z'` codes, and
inner-merge with the area lookup on `code_dep`.  pandas keeps the left
rows in order and pairs each with every matching right row. -/
def merge_referendum_and_areas (referendum : List RefRow)
    (rad : List AreaRow) : List JoinedVote :=
  (survivors referendum).flatMap (fun r =>
    (rad.filter (fun a => a.code_dep == r.code_dep)).map (fun a => mkJoined r a))

/-- pandas `groupby` drops rows whose grouping key holds a NaN
(`dropna=True` is the default): only rows with a present `name_reg`
take part in the grouping. -/
def validRows (rows : List JoinedVote) : List JoinedVote :=
  rows.filter (fun j => j.name_reg.isSome)

/-- The grouping key of a row: the `['code_reg', 'name_reg']` pair of
line 81-82.  Only applied to rows whose `name_reg` is present. -/
def rowKey (j : JoinedVote) : String × String :=
  (j.code_reg, j.name_reg.getD "")

/-- Ascending order on grouping keys: `code_reg` first, then `name_reg`
(pandas sorts group keys lexicographically on the tuple by default). -/
def RKey (k1 k2 : String × String) : Prop :=
  k1.1 < k2.1 ∨ (k1.1 = k2.1 ∧ k1.2 ≤ k2.2)

instance : DecidableRel RKey := fun k1 k2 => by
  unfold RKey; infer_instance

instance : IsTotal (String × String) RKey := by
  constructor
  intro a b
  rcases lt_trichotomy a.1 b.1 with h | h | h
  · exact Or.inl (Or.inl h)
  · rcases le_total a.2 b.2 with h2 | h2
    · exact Or.inl (Or.inr ⟨h, h2⟩)
    · exact Or.inr (Or.inr ⟨h.symm, h2⟩)
  · exact Or.inr (Or.inl h)

instance : IsTrans (String × String) RKey := by
  constructor
  rintro a b c (h1 | ⟨h1, h1'⟩) (h2 | ⟨h2, h2'⟩)
  · exact Or.inl (lt_trans h1 h2)
  · exact Or.inl (h2 ▸ h1)
  · exact Or.inl (h1 ▸ h2)
  · exact Or.inr ⟨h1.trans h2, le_trans h1' h2'⟩

instance : IsAntisymm (String × String) RKey := by
  constructor
  rintro a b (h1 | ⟨h1, h1'⟩) (h2 | ⟨h2, h2'⟩)
  · exact absurd (lt_trans h1 h2) (lt_irrefl _)
  · exact absurd h1 (h2 ▸ lt_irrefl _)
  · exact absurd h2 (h1 ▸ lt_irrefl _)
  · exact Prod.ext h1 (le_antisymm h1' h2')

/-- The distinct grouping keys, in the ascending order pandas emits them
(`groupby(..., sort=True)` is the default). -/
def groupKeys (rows : List JoinedVote) : List (String × String) :=
  List.insertionSort RKey (((validRows rows).map rowKey).dedup)

/-- The rows belonging to one group. -/
def groupRows (rows : List JoinedVote) (k : String × String) : List JoinedVote :=
  (validRows rows).filter (fun j => rowKey j == k)

/-- A row of the table returned by
`compute_referendum_result_by_regions`: indexed by `code_reg`, with the
region name and the five summed count columns. -/
structure RegionalResult where
  code_reg : String
  name_reg : String
  registered : Nat
  abstentions : Nat
  nullBallots : Nat
  choiceA : Nat
  choiceB : Nat
deriving DecidableEq, Repr

/-- Lines 81-94: group by `['code_reg', 'name_reg']`, sum the five count
columns over each group, `reset_index`, then `set_index('code_reg')`. -/
def compute_referendum_result_by_regions
    (rows : List JoinedVote) : List RegionalResult :=
  (groupKeys rows).map (fun k =>
    { code_reg := k.1, name_reg := k.2,
      registered := ((groupRows rows k).map JoinedVote.registered).sum,
      abstentions := ((groupRows rows k).map JoinedVote.abstentions).sum,
      nullBallots := ((groupRows rows k).map JoinedVote.nullBallots).sum,
      choiceA := ((groupRows rows k).map JoinedVote.choiceA).sum,
      choiceB := ((groupRows rows k).map JoinedVote.choiceB).sum })

/-- Line 109's per-row division `a / (a + b)`, in exact arithmetic.
pandas performs a float division that yields a non-finite value (NaN)
when `a + b = 0` instead of raising; `none` models that value. -/
def ratioOf (choiceA choiceB : Nat) : Option ℚ :=
  if choiceA + choiceB = 0 then none
  else some ((choiceA : ℚ) / ((choiceA : ℚ) + (choiceB : ℚ)))

/-- A regional result row after line 109 added the `ratio` column. -/
structure RegionalResultR extends RegionalResult where
  ratio_val : Option ℚ
deriving DecidableEq

/-- Lines 107-109: the state of the `referendum_result_by_regions`
argument after `referendum_result_by_regions['ratio'] = a / (a + b)`
ran — every row carries the derived ratio column. -/
def addRatio (t : List RegionalResult) : List RegionalResultR :=
  t.map (fun r => { toRegionalResult := r, ratio_val := ratioOf r.choiceA r.choiceB })

/-- A row of `regions.geojson` (the fields the code uses): the region
code as read, plus an opaque geometry payload. -/
structure GeoRow where
  code : RawCode
  geometry : String
deriving DecidableEq, Repr

/-- A row of the GeoDataFrame `plot_referendum_map` returns: geometry
columns plus the regional-result columns with the ratio. -/
structure GeoJoined where
  code : String
  geometry : String
  res : RegionalResultR
deriving DecidableEq

/-- Lines 97-128: compute the ratio column, cast the geometry table's
`code` to string (line 113), and inner-merge geometry rows with the
regional results on `code` against the `code_reg` index (lines 116-120).
The geometry table is external input (read from disk in the source), so
it is a parameter here; the rendering calls are side effects outside the
returned table. -/
def plot_referendum_map (geo : List GeoRow)
    (t : List RegionalResult) : List GeoJoined :=
  let withRatio := addRatio t
  geo.flatMap (fun g =>
    (withRatio.filter (fun r => r.code_reg == astype_str g.code)).map
      (fun r => { code := astype_str g.code, geometry := g.geometry, res := r }))

/-- The `referendum` argument of `merge_referendum_and_areas` seen as a
mutable table object: its rows, and the derived `code_dep` column when
present (`none` before the call adds it). -/
structure RefTableState where
  rows : List RefRow
  code_dep_col : Option (List String)
deriving DecidableEq, Repr

/-- Line 58 mutates the caller's frame:
`referendum['code_dep'] = dept_code.str.zfill(2)` assigns the normalized
column in place on the argument (the later filter and merge rebind the
local name only). -/
def refState_after_merge (t : RefTableState) : RefTableState :=
  { rows := t.rows,
    code_dep_col := some (t.rows.map (fun r => normalizeCode r.department_code)) }

/-- The `referendum_result_by_regions` argument of `plot_referendum_map`
seen as a mutable table object: its rows, and the derived `ratio` column
when present. -/
structure RegTableState where
  rows : List RegionalResult
  ratio_col : Option (List (Option ℚ))
deriving DecidableEq

/-- Line 109 mutates the caller's frame:
`referendum_result_by_regions['ratio'] = a / (a + b)` assigns the ratio
column in place on the argument. -/
def regState_after_plot (t : RegTableState) : RegTableState :=
  { rows := t.rows,
    ratio_col := some (t.rows.map (fun r => ratioOf r.choiceA r.choiceB)) }

/-- The column list of the referendum table the code reads (§ the CSV
header fields the pipeline uses), before `merge_referendum_and_areas`. -/
def referendumColumns : List String :=
  ["Department code", "Registered", "Abstentions", "Null", "Choice A", "Choice B"]

/-- The referendum table's columns after `merge_referendum_and_areas`
returned: line 58 added `code_dep` in place. -/
def referendumColumnsAfterMerge : List String :=
  referendumColumns ++ ["code_dep"]

/-! ### Facts about the zero-padding normalization -/

theorem foldl_digit_replicate_zero (k : Nat) :
    (List.replicate k '0').foldl (fun a c => 10 * a + digitVal c) 0 = 0 := by
  induction k with
  | zero => rfl
  | succ n ih =>
    rw [List.replicate_succ, List.foldl_cons]
    simpa [digitVal, Nat.sub_self] using ih

/-- Prepending `'0'` digits does not change the decimal value. -/
theorem decValue_mk_zeros (k : Nat) (l : List Char) :
    decValue (String.mk (List.replicate k '0' ++ l)) = decValue (String.mk l) := by
  unfold decValue
  rw [show (String.mk (List.replicate k '0' ++ l)).data
        = List.replicate k '0' ++ l from rfl,
      show (String.mk l).data = l from rfl,
      List.foldl_append, foldl_digit_replicate_zero]

theorem not_sign_of_isDigit {c : Char} (h : c.isDigit = true) :
    ¬(c = '+' ∨ c = '-') := by
  rintro (rfl | rfl) <;> exact absurd h (by decide)

theorem zfill_of_le (s : String) (w : Nat) (h : w ≤ s.length) :
    zfill s w = s := by
  unfold zfill
  rw [if_pos h]

theorem zfill_one_digit (c : Char) (hc : c.isDigit = true) :
    zfill (String.mk [c]) 2 = String.mk ['0', c] := by
  have hns : ¬(c = '+' ∨ c = '-') := not_sign_of_isDigit hc
  unfold zfill
  rw [if_neg (of_decide_eq_false (rfl : decide (2 ≤ (String.mk [c]).length) = false))]
  exact if_neg hns

/-- `zfill _ 2` on a digit string of length at most 2 yields a length-2
string with the same decimal value. -/
theorem zfill_two_of_digits (s : String)
    (hdig : ∀ c ∈ s.data, c.isDigit = true) (hlen : s.length ≤ 2) :
    (zfill s 2).length = 2 ∧ decValue (zfill s 2) = decValue s := by
  obtain ⟨l⟩ := s
  cases l with
  | nil => exact ⟨by decide, by decide⟩
  | cons c t =>
    cases t with
    | nil =>
      have hc : c.isDigit = true := hdig c (by simp)
      rw [zfill_one_digit c hc]
      exact ⟨rfl, decValue_mk_zeros 1 [c]⟩
    | cons c2 t2 =>
      have hl : (c :: c2 :: t2).length ≤ 2 := hlen
      have ht2 : t2 = [] := by
        simpa [Nat.succ_le_succ_iff, List.length_eq_zero] using hl
      subst ht2
      rw [zfill_of_le (String.mk [c, c2]) 2 (of_decide_eq_true rfl)]
      exact ⟨rfl, rfl⟩

/-- Decimal representations below 100 read back to their value. -/
theorem decValue_repr_of_lt : ∀ n < 100, decValue (Nat.repr n) = n := by decide

/-- Claim C4: for a department code given as an integer (of at most two
decimal digits) or as an unpadded digit string of length at most 2, the
normalization of `merge_referendum_and_areas` produces a string of
exactly length 2 with the same numeric value (`5` becomes `"05"`,
`"12"` stays `"12"`). -/
theorem code_normalization_C4 (raw : RawCode)
    (hdig : ∀ c ∈ (astype_str raw).data, c.isDigit = true)
    (hlen : (astype_str raw).length ≤ 2)
    (hbound : Option.all (fun n => decide (0 ≤ n ∧ n < 100)) (intValue raw) = true) :
    (normalizeCode raw).length = 2 ∧
    decValue (normalizeCode raw) = decValue (astype_str raw) ∧
    Option.all (fun n => (decValue (normalizeCode raw) : Int) == n)
      (intValue raw) = true := by
  obtain ⟨h1, h2⟩ := zfill_two_of_digits (astype_str raw) hdig hlen
  refine ⟨h1, h2, ?_⟩
  cases raw with
  | str s => rfl
  | int n =>
    have hb := of_decide_eq_true (hbound : decide (0 ≤ n ∧ n < 100) = true)
    obtain ⟨m, rfl⟩ : ∃ m : Nat, n = Int.ofNat m :=
      ⟨n.toNat, (Int.toNat_of_nonneg hb.1).symm⟩
    have hm : m < 100 :=
      Int.ofNat_lt.mp (show Int.ofNat m < Int.ofNat 100 from hb.2)
    show ((decValue (normalizeCode (RawCode.int (Int.ofNat m))) : Int)
            == Int.ofNat m) = true
    have h3 : decValue (normalizeCode (RawCode.int (Int.ofNat m)))
        = decValue (Nat.repr m) := h2
    rw [h3, decValue_repr_of_lt m hm]
    exact beq_self_eq_true _

/-- Witness for C4 at the concrete input `5`. -/
theorem code_normalization_C4_witness :
    (normalizeCode (RawCode.int 5)).length = 2 ∧
    decValue (normalizeCode (RawCode.int 5)) = decValue (astype_str (RawCode.int 5)) ∧
    Option.all (fun n => (decValue (normalizeCode (RawCode.int 5)) : Int) == n)
      (intValue (RawCode.int 5)) = true :=
  code_normalization_C4 (RawCode.int 5) (by decide) (by decide) (by decide)

/-! ### The area lookup (`merge_regions_and_departments`) -/

/-- Under pairwise-distinct region codes, filtering on a code keeps at
most the first hit. -/
theorem filter_code_eq_find (regions : List Region) (c : String)
    (h : List.Pairwise (fun r1 r2 => r1.code ≠ r2.code) regions) :
    regions.filter (fun r => r.code == c)
      = (regions.find? (fun r => r.code == c)).toList := by
  induction regions with
  | nil => rfl
  | cons r rest ih =>
    rw [List.pairwise_cons] at h
    by_cases hc : r.code = c
    · have hp : (r.code == c) = true := beq_iff_eq.mpr hc
      have hrest : rest.filter (fun x => x.code == c) = [] := by
        rw [List.filter_eq_nil_iff]
        intro b hb hbc
        exact h.1 b hb (hc.trans (beq_iff_eq.mp hbc).symm)
      rw [@List.filter_cons_of_pos _ (fun x => x.code == c) r rest hp,
          @List.find?_cons_of_pos _ (fun x => x.code == c) r rest hp, hrest]
      rfl
    · have hp : ¬ ((fun x : Region => x.code == c) r = true) := by
        show ¬ ((r.code == c) = true)
        rw [beq_iff_eq]; exact hc
      rw [@List.filter_cons_of_neg _ (fun x => x.code == c) r rest hp,
          @List.find?_cons_of_neg _ (fun x => x.code == c) r rest hp]
      exact ih h.2

/-- With unique region codes, the left merge emits exactly one row per
department, carrying the found region's name (or `none`). -/
theorem areaRowsOf_eq (regions : List Region) (d : Department)
    (huniq : List.Pairwise (fun r1 r2 => r1.code ≠ r2.code) regions) :
    areaRowsOf regions d
      = [{ code_reg := d.region_code,
           name_reg := (regions.find? (fun r => r.code == d.region_code)).map Region.name,
           code_dep := d.code, name_dep := d.name }] := by
  unfold areaRowsOf
  rw [filter_code_eq_find regions d.region_code huniq]
  cases hfind : regions.find? (fun r => r.code == d.region_code) with
  | none => rfl
  | some r => rfl

/-- Claim C5: for a regions table with unique region codes,
`merge_regions_and_departments` returns exactly one row per input
department (identity preserved), with column set exactly
`['code_reg', 'name_reg', 'code_dep', 'name_dep']`; a department whose
region code matches no region keeps its row with `name_reg` absent. -/
theorem area_lookup_C5 (regions : List Region) (departments : List Department)
    (huniq : List.Pairwise (fun r1 r2 => r1.code ≠ r2.code) regions) :
    merge_regions_and_departments regions departments
      = departments.map (fun d =>
          { code_reg := d.region_code,
            name_reg := (regions.find? (fun r => r.code == d.region_code)).map Region.name,
            code_dep := d.code, name_dep := d.name }) ∧
    (merge_regions_and_departments regions departments).length = departments.length ∧
    areaColumns = ["code_reg", "name_reg", "code_dep", "name_dep"] := by
  have h1 : merge_regions_and_departments regions departments
      = departments.map (fun d =>
          { code_reg := d.region_code,
            name_reg := (regions.find? (fun r => r.code == d.region_code)).map Region.name,
            code_dep := d.code, name_dep := d.name }) := by
    unfold merge_regions_and_departments
    induction departments with
    | nil => rfl
    | cons d ds ih =>
      rw [List.flatMap_cons, List.map_cons, areaRowsOf_eq regions d huniq, ih]
      rfl
  exact ⟨h1, by rw [h1, List.length_map], rfl⟩

/-- Sample region table for witnesses. -/
def regionsSample : List Region :=
  [{ code := "84", name := "Auvergne-Rhone-Alpes" },
   { code := "11", name := "Ile-de-France" }]

/-- Sample department table for witnesses; the second department's
region code matches no region. -/
def departmentsSample : List Department :=
  [{ region_code := "84", code := "01", name := "Ain" },
   { region_code := "99", code := "98", name := "Nowhere" }]

/-- Witness for C5 at a concrete pair of tables, one department
unmatched. -/
theorem area_lookup_C5_witness :
    merge_regions_and_departments regionsSample departmentsSample
      = departmentsSample.map (fun d =>
          { code_reg := d.region_code,
            name_reg := (regionsSample.find? (fun r => r.code == d.region_code)).map Region.name,
            code_dep := d.code, name_dep := d.name }) ∧
    (merge_regions_and_departments regionsSample departmentsSample).length
      = departmentsSample.length ∧
    areaColumns = ["code_reg", "name_reg", "code_dep", "name_dep"] :=
  area_lookup_C5 regionsSample departmentsSample (by decide)

/-! ### The vote normalizer and joiner (`merge_referendum_and_areas`) -/

/-- The `'Z'` filter commutes with attaching the normalized code:
dropping the `'Z'` records from the input does not change the joined
table, so an excluded record influences nothing downstream. -/
theorem survivors_filter_eq (referendum : List RefRow) :
    survivors (referendum.filter
      (fun r => !containsZ (normalizeCode r.department_code)))
      = survivors referendum := by
  unfold survivors referendum_after_merge
  rw [List.filter_map, List.filter_map, List.filter_filter]
  congr 1
  apply List.filter_congr
  intro r _
  exact Bool.and_self _

/-- Claim C2: every row of `merge_referendum_and_areas` carries the
normalized code of its record and that code contains no `'Z'`; moreover
deleting the `'Z'` records from the input leaves the output unchanged,
so such records appear in no downstream table either (all downstream
tables are functions of this output). -/
theorem z_exclusion_C2 (referendum : List RefRow) (rad : List AreaRow) :
    (merge_referendum_and_areas referendum rad).all
      (fun j => !containsZ j.code_dep
        && (j.code_dep == normalizeCode j.department_code)) = true ∧
    merge_referendum_and_areas
      (referendum.filter (fun r => !containsZ (normalizeCode r.department_code))) rad
      = merge_referendum_and_areas referendum rad := by
  constructor
  · rw [List.all_eq_true]
    intro j hj
    unfold merge_referendum_and_areas at hj
    rw [List.mem_flatMap] at hj
    obtain ⟨r, hr, hjr⟩ := hj
    rw [List.mem_map] at hjr
    obtain ⟨a, _, rfl⟩ := hjr
    unfold survivors at hr
    rw [List.mem_filter] at hr
    obtain ⟨hr1, hr2⟩ := hr
    unfold referendum_after_merge at hr1
    rw [List.mem_map] at hr1
    obtain ⟨r0, _, rfl⟩ := hr1
    simp only [mkJoined]
    rw [Bool.and_eq_true]
    exact ⟨hr2, beq_self_eq_true _⟩
  · unfold merge_referendum_and_areas
    rw [survivors_filter_eq]

/-- Under pairwise-distinct `code_dep`, filtering the area table on a
code keeps at most the first hit. -/
theorem filter_dep_eq_find (rad : List AreaRow) (c : String)
    (h : List.Pairwise (fun a1 a2 => a1.code_dep ≠ a2.code_dep) rad) :
    rad.filter (fun a => a.code_dep == c)
      = (rad.find? (fun a => a.code_dep == c)).toList := by
  induction rad with
  | nil => rfl
  | cons a rest ih =>
    rw [List.pairwise_cons] at h
    by_cases hc : a.code_dep = c
    · have hp : (a.code_dep == c) = true := beq_iff_eq.mpr hc
      have hrest : rest.filter (fun x => x.code_dep == c) = [] := by
        rw [List.filter_eq_nil_iff]
        intro b hb hbc
        exact h.1 b hb (hc.trans (beq_iff_eq.mp hbc).symm)
      rw [@List.filter_cons_of_pos _ (fun x => x.code_dep == c) a rest hp,
          @List.find?_cons_of_pos _ (fun x => x.code_dep == c) a rest hp, hrest]
      rfl
    · have hp : ¬ ((fun x : AreaRow => x.code_dep == c) a = true) := by
        show ¬ ((a.code_dep == c) = true)
        rw [beq_iff_eq]; exact hc
      rw [@List.filter_cons_of_neg _ (fun x => x.code_dep == c) a rest hp,
          @List.find?_cons_of_neg _ (fun x => x.code_dep == c) a rest hp]
      exact ih h.2

/-- A sum of per-element counts that are each at most one is bounded by
the length, with equality exactly when every count is one. -/
theorem sum_le_length_of_le_one (L : List RefRowN) (g : RefRowN → Nat)
    (h : ∀ r ∈ L, g r ≤ 1) :
    (L.map g).sum ≤ L.length ∧
    ((L.map g).sum = L.length ↔ ∀ r ∈ L, g r = 1) := by
  induction L with
  | nil => exact ⟨Nat.le_refl 0, by simp⟩
  | cons r rest ih =>
    obtain ⟨ih1, ih2⟩ := ih (fun x hx => h x (List.mem_cons_of_mem r hx))
    have hr := h r (List.mem_cons_self r rest)
    constructor
    · simp only [List.map_cons, List.sum_cons, List.length_cons]
      omega
    · simp only [List.map_cons, List.sum_cons, List.length_cons,
        List.forall_mem_cons]
      constructor
      · intro he
        have hg : g r = 1 ∧ (rest.map g).sum = rest.length := by omega
        exact ⟨hg.1, ih2.mp hg.2⟩
      · rintro ⟨h1, h2⟩
        rw [h1, ih2.mpr h2]
        omega

/-- Claim C3: the joined table has at most one row per surviving record
(given the area lookup's unique department codes), with equality exactly
when every surviving normalized code matches an area entry. -/
theorem join_cardinality_C3 (referendum : List RefRow) (rad : List AreaRow)
    (huniq : List.Pairwise (fun a1 a2 => a1.code_dep ≠ a2.code_dep) rad) :
    (merge_referendum_and_areas referendum rad).length
      ≤ (survivors referendum).length ∧
    ((merge_referendum_and_areas referendum rad).length
        = (survivors referendum).length ↔
      (survivors referendum).all
        (fun r => rad.any (fun a => a.code_dep == r.code_dep)) = true) := by
  have hlen : (merge_referendum_and_areas referendum rad).length
      = ((survivors referendum).map
          (fun r => (rad.filter (fun a => a.code_dep == r.code_dep)).length)).sum := by
    unfold merge_referendum_and_areas
    rw [List.flatMap_def, List.length_flatten, List.map_map]
    simp only [Function.comp_def, List.length_map]
  have hle1 : ∀ r ∈ survivors referendum,
      (rad.filter (fun a => a.code_dep == r.code_dep)).length ≤ 1 := by
    intro r _
    rw [filter_dep_eq_find rad _ huniq]
    cases rad.find? (fun a => a.code_dep == r.code_dep) <;>
      exact of_decide_eq_true rfl
  obtain ⟨hle, hiff⟩ := sum_le_length_of_le_one (survivors referendum)
    (fun r => (rad.filter (fun a => a.code_dep == r.code_dep)).length) hle1
  rw [hlen]
  refine ⟨hle, hiff.trans ?_⟩
  rw [List.all_eq_true]
  refine forall_congr' (fun r => imp_congr_right (fun _ => ?_))
  rw [filter_dep_eq_find rad _ huniq]
  cases hf : rad.find? (fun a => a.code_dep == r.code_dep) with
  | none =>
    constructor
    · intro h01
      exact absurd h01 (by decide)
    · intro hany
      rw [List.any_eq_true] at hany
      obtain ⟨a, ha, hpa⟩ := hany
      exact absurd hpa (List.find?_eq_none.mp hf a ha)
  | some a =>
    constructor
    · intro _
      rw [List.any_eq_true]
      exact ⟨a, List.mem_of_find?_eq_some hf,
        @List.find?_some _ (fun x : AreaRow => x.code_dep == r.code_dep) a rad hf⟩
    · intro _
      exact of_decide_eq_true rfl

/-- Sample referendum table for witnesses: two records for department
`1` (as in the spec's end-to-end scenario) and one abroad record with
code `"2Z"`. -/
def referendumSample : List RefRow :=
  [{ department_code := RawCode.int 1, registered := 100, abstentions := 10,
     nullBallots := 5, choiceA := 60, choiceB := 40 },
   { department_code := RawCode.int 1, registered := 50, abstentions := 15,
     nullBallots := 5, choiceA := 10, choiceB := 20 },
   { department_code := RawCode.str "2Z", registered := 7, abstentions := 1,
     nullBallots := 0, choiceA := 3, choiceB := 3 }]

/-- Sample area lookup table for witnesses. -/
def radSample : List AreaRow :=
  [{ code_reg := "84", name_reg := some "Auvergne-Rhone-Alpes",
     code_dep := "01", name_dep := "Ain" },
   { code_reg := "11", name_reg := some "Ile-de-France",
     code_dep := "75", name_dep := "Paris" }]

/-- Witness for C3 at concrete tables (the `"2Z"` record is excluded,
both surviving records match department `"01"`). -/
theorem join_cardinality_C3_witness :
    (merge_referendum_and_areas referendumSample radSample).length
      ≤ (survivors referendumSample).length ∧
    ((merge_referendum_and_areas referendumSample radSample).length
        = (survivors referendumSample).length ↔
      (survivors referendumSample).all
        (fun r => radSample.any (fun a => a.code_dep == r.code_dep)) = true) :=
  join_cardinality_C3 referendumSample radSample (by decide)

/-! ### The regional aggregator (`compute_referendum_result_by_regions`) -/

/-- Every computed group key is the key of some valid row. -/
theorem mem_groupKeys (rows : List JoinedVote) (k : String × String)
    (hk : k ∈ groupKeys rows) : ∃ j ∈ validRows rows, rowKey j = k := by
  unfold groupKeys at hk
  rw [List.mem_insertionSort, List.mem_dedup, List.mem_map] at hk
  exact hk

/-- When every row has a region name and the name is a function of the
region code, a group keyed by `k` holds exactly the rows whose
`code_reg` is `k.1`. -/
theorem groupRows_eq_filter_code (rows : List JoinedVote)
    (hname : ∀ j ∈ rows, j.name_reg.isSome = true)
    (hfun : ∀ j1 ∈ rows, ∀ j2 ∈ rows, j1.code_reg = j2.code_reg →
      j1.name_reg = j2.name_reg)
    (k : String × String) (hk : k ∈ groupKeys rows) :
    groupRows rows k = rows.filter (fun j => j.code_reg == k.1) := by
  obtain ⟨j0, hj0v, hj0k⟩ := mem_groupKeys rows k hk
  have hj0 : j0 ∈ rows := by
    unfold validRows at hj0v
    exact (List.mem_filter.mp hj0v).1
  have hk1 : j0.code_reg = k.1 := congrArg Prod.fst hj0k
  have hk2 : j0.name_reg.getD "" = k.2 := congrArg Prod.snd hj0k
  unfold groupRows
  have hval : validRows rows = rows := by
    unfold validRows
    rw [List.filter_eq_self]
    exact hname
  rw [hval]
  apply List.filter_congr
  intro j hj
  by_cases hc : j.code_reg = k.1
  · have hn : j.name_reg = j0.name_reg := hfun j hj j0 hj0 (hc.trans hk1.symm)
    have hjk : rowKey j = k := by
      refine Prod.ext hc ?_
      show j.name_reg.getD "" = k.2
      rw [hn, hk2]
    rw [hjk, hc, beq_self_eq_true, beq_self_eq_true]
  · have h1 : (rowKey j == k) = false := by
      rw [beq_eq_false_iff_ne]
      intro he
      exact hc (congrArg Prod.fst he)
    have h2 : (j.code_reg == k.1) = false := beq_eq_false_iff_ne.mpr hc
    rw [h1, h2]

/-- Claim C1: when every joined row carries a region name and region
names are determined by region codes (the 1:1 invariant inherited from
the area lookup), each numeric column of the regional result at region
code `R` is the sum of that column over all input rows with code `R`. -/
theorem aggregation_C1 (rows : List JoinedVote)
    (hname : ∀ j ∈ rows, j.name_reg.isSome = true)
    (hfun : ∀ j1 ∈ rows, ∀ j2 ∈ rows, j1.code_reg = j2.code_reg →
      j1.name_reg = j2.name_reg)
    (res : RegionalResult)
    (hres : res ∈ compute_referendum_result_by_regions rows) :
    res.registered = ((rows.filter (fun j => j.code_reg == res.code_reg)).map
      JoinedVote.registered).sum ∧
    res.abstentions = ((rows.filter (fun j => j.code_reg == res.code_reg)).map
      JoinedVote.abstentions).sum ∧
    res.nullBallots = ((rows.filter (fun j => j.code_reg == res.code_reg)).map
      JoinedVote.nullBallots).sum ∧
    res.choiceA = ((rows.filter (fun j => j.code_reg == res.code_reg)).map
      JoinedVote.choiceA).sum ∧
    res.choiceB = ((rows.filter (fun j => j.code_reg == res.code_reg)).map
      JoinedVote.choiceB).sum := by
  unfold compute_referendum_result_by_regions at hres
  rw [List.mem_map] at hres
  obtain ⟨k, hk, rfl⟩ := hres
  have hg := groupRows_eq_filter_code rows hname hfun k hk
  refine ⟨?_, ?_, ?_, ?_, ?_⟩
  · show ((groupRows rows k).map JoinedVote.registered).sum
        = ((rows.filter (fun j => j.code_reg == k.1)).map JoinedVote.registered).sum
    rw [hg]
  · show ((groupRows rows k).map JoinedVote.abstentions).sum
        = ((rows.filter (fun j => j.code_reg == k.1)).map JoinedVote.abstentions).sum
    rw [hg]
  · show ((groupRows rows k).map JoinedVote.nullBallots).sum
        = ((rows.filter (fun j => j.code_reg == k.1)).map JoinedVote.nullBallots).sum
    rw [hg]
  · show ((groupRows rows k).map JoinedVote.choiceA).sum
        = ((rows.filter (fun j => j.code_reg == k.1)).map JoinedVote.choiceA).sum
    rw [hg]
  · show ((groupRows rows k).map JoinedVote.choiceB).sum
        = ((rows.filter (fun j => j.code_reg == k.1)).map JoinedVote.choiceB).sum
    rw [hg]

/-- The joined table of the sample inputs (two surviving rows for
department `"01"`, region `"84"`). -/
def joinedSample : List JoinedVote :=
  merge_referendum_and_areas referendumSample radSample

/-- The single regional result the sample aggregates to. -/
def resSample : RegionalResult :=
  { code_reg := "84", name_reg := "Auvergne-Rhone-Alpes", registered := 150,
    abstentions := 25, nullBallots := 10, choiceA := 70, choiceB := 60 }

/-- Witness for C1 at the concrete sample pipeline data. -/
theorem aggregation_C1_witness :
    resSample.registered = ((joinedSample.filter
      (fun j => j.code_reg == resSample.code_reg)).map JoinedVote.registered).sum ∧
    resSample.abstentions = ((joinedSample.filter
      (fun j => j.code_reg == resSample.code_reg)).map JoinedVote.abstentions).sum ∧
    resSample.nullBallots = ((joinedSample.filter
      (fun j => j.code_reg == resSample.code_reg)).map JoinedVote.nullBallots).sum ∧
    resSample.choiceA = ((joinedSample.filter
      (fun j => j.code_reg == resSample.code_reg)).map JoinedVote.choiceA).sum ∧
    resSample.choiceB = ((joinedSample.filter
      (fun j => j.code_reg == resSample.code_reg)).map JoinedVote.choiceB).sum :=
  aggregation_C1 joinedSample (by decide) (by decide) resSample (by decide)

/-- Claim C9: permuting the input rows does not change the regional
result table. -/
theorem order_insensitive_C9 (rows1 rows2 : List JoinedVote)
    (h : rows1.Perm rows2) :
    compute_referendum_result_by_regions rows1
      = compute_referendum_result_by_regions rows2 := by
  have hkeys : groupKeys rows1 = groupKeys rows2 := by
    unfold groupKeys
    exact List.eq_of_perm_of_sorted
      (((List.perm_insertionSort RKey _).trans
        (((h.filter _).map rowKey).dedup)).trans
        (List.perm_insertionSort RKey _).symm)
      (List.sorted_insertionSort RKey _)
      (List.sorted_insertionSort RKey _)
  have hgroup : ∀ k, (groupRows rows1 k).Perm (groupRows rows2 k) := by
    intro k
    unfold groupRows validRows
    exact (h.filter _).filter _
  unfold compute_referendum_result_by_regions
  rw [hkeys]
  apply List.map_congr_left
  intro k _
  rw [RegionalResult.mk.injEq]
  exact ⟨rfl, rfl, ((hgroup k).map JoinedVote.registered).sum_eq,
    ((hgroup k).map JoinedVote.abstentions).sum_eq,
    ((hgroup k).map JoinedVote.nullBallots).sum_eq,
    ((hgroup k).map JoinedVote.choiceA).sum_eq,
    ((hgroup k).map JoinedVote.choiceB).sum_eq⟩

/-- Witness for C9 at a concrete permutation (the sample table and its
reverse). -/
theorem order_insensitive_C9_witness :
    compute_referendum_result_by_regions joinedSample
      = compute_referendum_result_by_regions joinedSample.reverse :=
  order_insensitive_C9 joinedSample joinedSample.reverse
    (List.reverse_perm joinedSample).symm

/-- Claim C10: the regional result rows come out sorted in ascending
order of the `(code_reg, name_reg)` grouping key. -/
theorem sorted_output_C10 (rows : List JoinedVote) :
    List.Sorted RKey ((compute_referendum_result_by_regions rows).map
      (fun res => (res.code_reg, res.name_reg))) := by
  unfold compute_referendum_result_by_regions
  rw [List.map_map]
  simp only [Function.comp_def, Prod.mk.eta, List.map_id']
  exact List.sorted_insertionSort RKey _

/-! ### The ratio column and the mutation of stage inputs -/

/-- Pointwise shape of the ratio computation. -/
theorem ratioOf_spec (a b : Nat) :
    (if a + b = 0 then ratioOf a b == none
     else ratioOf a b == some ((a : ℚ) / ((a : ℚ) + (b : ℚ)))) = true := by
  unfold ratioOf
  by_cases h : a + b = 0
  · rw [if_pos h, if_pos h]
    rfl
  · rw [if_neg h, if_neg h]
    exact beq_self_eq_true _

/-- Claim C7: in `plot_referendum_map`, the ratio column is
`Choice A / (Choice A + Choice B)` per region, and a region with
`Choice A + Choice B = 0` yields the undefined value (`none`, modelling
the non-finite float) instead of raising. -/
theorem ratio_policy_C7 (t : List RegionalResult) :
    (addRatio t).all (fun r =>
      if r.choiceA + r.choiceB = 0 then r.ratio_val == none
      else r.ratio_val == some
        ((r.choiceA : ℚ) / ((r.choiceA : ℚ) + (r.choiceB : ℚ)))) = true := by
  rw [List.all_eq_true]
  intro r hr
  unfold addRatio at hr
  rw [List.mem_map] at hr
  obtain ⟨x, _, rfl⟩ := hr
  exact ratioOf_spec x.choiceA x.choiceB

/-- Claim C8: a region with a strictly positive expressed-ballot count
gets a defined ratio lying between 0 and 1. -/
theorem ratio_bounds_C8 (t : List RegionalResult) (r : RegionalResultR)
    (hr : r ∈ addRatio t) (hpos : 0 < r.choiceA + r.choiceB) :
    r.ratio_val.isSome = true ∧
    0 ≤ r.ratio_val.getD 0 ∧ r.ratio_val.getD 0 ≤ 1 := by
  unfold addRatio at hr
  rw [List.mem_map] at hr
  obtain ⟨x, _, rfl⟩ := hr
  have hx : x.choiceA + x.choiceB ≠ 0 := Nat.pos_iff_ne_zero.mp hpos
  show (ratioOf x.choiceA x.choiceB).isSome = true ∧
    0 ≤ (ratioOf x.choiceA x.choiceB).getD 0 ∧
    (ratioOf x.choiceA x.choiceB).getD 0 ≤ 1
  unfold ratioOf
  rw [if_neg hx]
  refine ⟨rfl, ?_, ?_⟩
  · show (0 : ℚ) ≤ (x.choiceA : ℚ) / ((x.choiceA : ℚ) + (x.choiceB : ℚ))
    exact div_nonneg (Nat.cast_nonneg _)
      (add_nonneg (Nat.cast_nonneg _) (Nat.cast_nonneg _))
  · show (x.choiceA : ℚ) / ((x.choiceA : ℚ) + (x.choiceB : ℚ)) ≤ 1
    exact div_le_one_of_le₀ (le_add_of_nonneg_right (Nat.cast_nonneg _))
      (add_nonneg (Nat.cast_nonneg _) (Nat.cast_nonneg _))

/-- The single-row regional table used for the ratio witnesses. -/
def regResultsSample : List RegionalResult := [resSample]

/-- The sample regional row with its ratio column. -/
def resRowSample : RegionalResultR :=
  { toRegionalResult := resSample, ratio_val := ratioOf 70 60 }

/-- Witness for C8 at the concrete sample region (ratio 70/130). -/
theorem ratio_bounds_C8_witness :
    resRowSample.ratio_val.isSome = true ∧
    0 ≤ resRowSample.ratio_val.getD 0 ∧ resRowSample.ratio_val.getD 0 ≤ 1 :=
  ratio_bounds_C8 regResultsSample resRowSample
    (List.mem_singleton.mpr rfl) (by decide)

/-- Claim C6 counterexample: both stages do modify the table passed in.
`merge_referendum_and_areas` adds the `code_dep` column to its
`referendum` argument in place (line 58), and `plot_referendum_map`
adds the `ratio` column to its argument in place (line 109); at these
concrete inputs the argument's state after the call differs from its
state before. -/
theorem stage_purity_C6_counterexample :
    refState_after_merge { rows := referendumSample, code_dep_col := none }
      ≠ { rows := referendumSample, code_dep_col := none } ∧
    regState_after_plot { rows := regResultsSample, ratio_col := none }
      ≠ { rows := regResultsSample, ratio_col := none } :=
  ⟨by decide, by decide⟩

/-- Claim C6 as amended: each of the two mutating stages changes its
input table only by adding the derived column (`code_dep`, resp.
`ratio`); the pre-existing rows and columns are left unchanged. -/
theorem stage_purity_C6_amended (t : RefTableState) (u : RegTableState) :
    (refState_after_merge t).rows = t.rows ∧
    (refState_after_merge t).code_dep_col
      = some (t.rows.map (fun r => normalizeCode r.department_code)) ∧
    (regState_after_plot u).rows = u.rows ∧
    (regState_after_plot u).ratio_col
      = some (u.rows.map (fun r => ratioOf r.choiceA r.choiceB)) :=
  ⟨rfl, rfl, rfl, rfl⟩

end Referendum
